import Mathlib

/-!
Shallow embedding of the batch orchestration engine (`src/batch.ts`) and of the
gRPC-Web codec (the `GrpcWebClient` class used by `src/services/refresh.ts` and
`src/services/nsfw.ts`) of the grok2api Cloudflare Workers port, together with
theorems settling the frozen claims C1-C10 about them.

Modelling conventions:
- JavaScript `Map` objects are modelled as association lists with insertion
  order preserved; `set` overwrites in place, `get` returns the first match.
- `Uint8Array` byte buffers are modelled as `List Nat` whose entries are
  understood to lie below 256 (the typed array stores values mod 256); the
  frame-length arithmetic applies `% 256` exactly where the typed array or the
  `& 0xff` masks of the source do.
- Asynchronous execution is sequentialized: within `runBatch` a chunk's items
  are folded in order, and the time-varying cancellation signal
  (`options.shouldCancel?.() ?? false`) is modelled as a Boolean function of
  the number of per-item checks performed so far, so that a signal that flips
  between two checks of the real program is expressible.
- Worker promises are modelled as `Except String R`: resolution is `.ok`,
  rejection carries the extracted error message.
-/

namespace Grok2api

/-- Association-list model of a JavaScript `Map`: `set` overwrites an existing
key in place and otherwise appends, preserving insertion order. -/
def jsMapSet {K V : Type} [DecidableEq K] : List (K × V) → K → V → List (K × V)
  | [], k, v => [(k, v)]
  | p :: t, k, v => if p.1 = k then (k, v) :: t else p :: jsMapSet t k v

/-- Model of `Map.get`: the value of the entry with this key, if any. -/
def jsMapGet {K V : Type} [DecidableEq K] : List (K × V) → K → Option V
  | [], _ => none
  | p :: t, k => if p.1 = k then some p.2 else jsMapGet t k

/-- Model of `Map.has`. -/
def jsMapHas {K V : Type} [DecidableEq K] (m : List (K × V)) (k : K) : Bool :=
  m.any (fun p => decide (p.1 = k))

/-- Model of `Map.delete` (the deleted key simply disappears). -/
def jsMapDelete {K V : Type} [DecidableEq K] (m : List (K × V)) (k : K) :
    List (K × V) :=
  m.filter (fun p => decide (p.1 ≠ k))

/-- String-to-string `Map`, as used for gRPC-Web trailers. -/
abbrev JsMap : Type := List (String × String)

/-- Model of JavaScript `parseInt(s, 10)`: skip leading whitespace, read an
optional sign and then the maximal run of leading decimal digits; `none`
models `NaN` (no digits found). Trailing garbage is ignored, as in JS. -/
def parseIntJS (s : String) : Option Int :=
  let cs := s.toList.dropWhile Char.isWhitespace
  let signAndDigits : Bool × List Char :=
    match cs with
    | '-' :: t => (true, t)
    | '+' :: t => (false, t)
    | t => (false, t)
  let ds := signAndDigits.2.takeWhile Char.isDigit
  if ds.isEmpty then none
  else
    let v : Nat := ds.foldl (fun a c => a * 10 + (c.toNat - '0'.toNat)) 0
    some (if signAndDigits.1 then -(v : Int) else (v : Int))

/-- Value of a hexadecimal digit character, `none` if not a hex digit. -/
def hexVal (c : Char) : Option Nat :=
  if '0' ≤ c ∧ c ≤ '9' then some (c.toNat - '0'.toNat)
  else if 'a' ≤ c ∧ c ≤ 'f' then some (c.toNat - 'a'.toNat + 10)
  else if 'A' ≤ c ∧ c ≤ 'F' then some (c.toNat - 'A'.toNat + 10)
  else none

/-- Whether a byte is a UTF-8 continuation byte (0x80-0xBF). -/
def isCont (b : Nat) : Bool := decide (128 ≤ b ∧ b ≤ 191)

/-- Decode one UTF-8 scalar value from the front of a byte list, rejecting
overlong encodings, surrogates and out-of-range values. -/
def utf8DecodeOne : List Nat → Option (Char × List Nat)
  | [] => none
  | b :: rest =>
    if b < 128 then some (Char.ofNat b, rest)
    else if 194 ≤ b ∧ b ≤ 223 then
      match rest with
      | b1 :: rest1 =>
        if isCont b1 then some (Char.ofNat ((b - 192) * 64 + (b1 - 128)), rest1)
        else none
      | [] => none
    else if 224 ≤ b ∧ b ≤ 239 then
      match rest with
      | b1 :: b2 :: rest2 =>
        let lo := if b = 224 then 160 else 128
        let hi := if b = 237 then 159 else 191
        if decide (lo ≤ b1 ∧ b1 ≤ hi) && isCont b2 then
          some (Char.ofNat ((b - 224) * 4096 + (b1 - 128) * 64 + (b2 - 128)), rest2)
        else none
      | _ => none
    else if 240 ≤ b ∧ b ≤ 244 then
      match rest with
      | b1 :: b2 :: b3 :: rest3 =>
        let lo := if b = 240 then 144 else 128
        let hi := if b = 244 then 143 else 191
        if decide (lo ≤ b1 ∧ b1 ≤ hi) && isCont b2 && isCont b3 then
          some (Char.ofNat ((b - 240) * 262144 + (b1 - 128) * 4096 +
            (b2 - 128) * 64 + (b3 - 128)), rest3)
        else none
      | _ => none
    else none

/-- Fuelled strict UTF-8 decoding: `none` on any invalid sequence. Models the
all-or-nothing UTF-8 validation of `decodeURIComponent`. -/
def utf8DecodeStrictAux : Nat → List Nat → Option (List Char)
  | _, [] => some []
  | 0, _ :: _ => none
  | fuel + 1, bs =>
    match utf8DecodeOne bs with
    | some (c, rest) =>
      match utf8DecodeStrictAux fuel rest with
      | some cs => some (c :: cs)
      | none => none
    | none => none

/-- Strict UTF-8 decoding of a whole byte list. -/
def utf8DecodeStrict (bs : List Nat) : Option (List Char) :=
  utf8DecodeStrictAux bs.length bs

/-- Fuelled lossy UTF-8 decoding: an invalid byte becomes U+FFFD and decoding
resumes at the next byte. Models `new TextDecoder().decode` (non-fatal). -/
def utf8DecodeReplaceAux : Nat → List Nat → List Char
  | _, [] => []
  | 0, _ :: _ => []
  | fuel + 1, bs =>
    match utf8DecodeOne bs with
    | some (c, rest) => c :: utf8DecodeReplaceAux fuel rest
    | none =>
      match bs with
      | _ :: rest => Char.ofNat 0xFFFD :: utf8DecodeReplaceAux fuel rest
      | [] => []

/-- Lossy UTF-8 decoding of a whole byte list into a string. -/
def utf8DecodeReplace (bs : List Nat) : String :=
  String.mk (utf8DecodeReplaceAux bs.length bs)

/-- Read a maximal run of `%HH` escapes from the front of a character list,
yielding the escaped bytes; `none` models the `URIError` thrown on a `%` not
followed by two hex digits. -/
def percentRun : Nat → List Char → Option (List Nat × List Char)
  | 0, cs => some ([], cs)
  | fuel + 1, cs =>
    match cs with
    | '%' :: c1 :: c2 :: rest =>
      match hexVal c1, hexVal c2 with
      | some h, some l =>
        match percentRun fuel rest with
        | some (bs, rest1) => some ((h * 16 + l) :: bs, rest1)
        | none => none
      | _, _ => none
    | '%' :: _ => none
    | _ => some ([], cs)

/-- Fuelled body of `decodeURIComponent`: each maximal `%HH` run is decoded as
strict UTF-8, other characters pass through; `none` models a thrown
`URIError`. -/
def decodeURIComponentAux : Nat → List Char → Option (List Char)
  | _, [] => some []
  | 0, _ :: _ => none
  | fuel + 1, cs =>
    match cs with
    | '%' :: _ =>
      match percentRun cs.length cs with
      | some (bs, rest) =>
        match utf8DecodeStrict bs, decodeURIComponentAux fuel rest with
        | some ds, some tail => some (ds ++ tail)
        | _, _ => none
      | none => none
    | c :: rest =>
      match decodeURIComponentAux fuel rest with
      | some tail => some (c :: tail)
      | none => none
    | [] => some []

/-- Model of JavaScript `decodeURIComponent`, restricted to Basic Multilingual
Plane inputs (the gRPC trailer charset is ASCII). -/
def decodeURIComponentJS (s : String) : Option String :=
  (decodeURIComponentAux s.toList.length s.toList).map (fun cs => String.mk cs)

/-- Strip one trailing carriage return, used when splitting on the
regular expression `\r?\n` (the accumulator is held reversed). -/
def dropTrailingCR (cur : List Char) : List Char :=
  match cur with
  | '\r' :: t => t
  | _ => cur

/-- Fuelled splitting of a character list at each `\r?\n`. -/
def splitLinesAux : Nat → List Char → List Char → List (List Char)
  | _, [], cur => [cur.reverse]
  | 0, rest, cur => [cur.reverse ++ rest]
  | fuel + 1, '\n' :: rest, cur =>
    (dropTrailingCR cur).reverse :: splitLinesAux fuel rest []
  | fuel + 1, c :: rest, cur => splitLinesAux fuel rest (c :: cur)

/-- Model of `text.split(/\r?\n/)`. -/
def splitLinesJS (s : String) : List String :=
  (splitLinesAux s.toList.length s.toList []).map (fun cs => String.mk cs)

/-- Model of `String.prototype.trim` (ASCII whitespace). -/
def jsTrim (s : String) : String :=
  String.mk (((s.toList.dropWhile Char.isWhitespace).reverse.dropWhile
    Char.isWhitespace).reverse)

/-- Status of a batch task, `src/batch.ts`. -/
inductive BatchStatus : Type
  | running
  | done
  | error
  | cancelled
deriving DecidableEq

/-- Optional per-item information passed to `BatchTask.record`. The `detail`
payload is typed `unknown` in the source and is modelled as a string. -/
structure RecordOpts : Type where
  item : Option String
  detail : Option String
  error : Option String
deriving DecidableEq

/-- Plain JavaScript object with string values, modelling the
`Record<string, unknown>` result payload of a finished batch. -/
abbrev JsObject : Type := List (String × String)

/-- Discriminated union of batch events, `src/batch.ts`. Field order matches
the object literals of the source, which fixes the JSON key order. -/
inductive BatchEvent : Type
  | progress (task_id : String) (total processed ok fail : Nat)
      (item : Option String) (detail : Option String) (error : Option String)
  | done (task_id : String) (total processed ok fail : Nat)
      (warning : Option String) (result : JsObject)
  | error (task_id : String) (total processed ok fail : Nat) (error : String)
  | cancelled (task_id : String) (total processed ok fail : Nat)
deriving DecidableEq

/-- Mutable state of a `BatchTask` instance. The `createdAt` timestamp is
informational only and is not modelled; the random task id is a parameter of
the constructor model. Each subscriber handle's bounded queue is one entry of
`queues`. -/
structure BatchTask : Type where
  id : String
  total : Nat
  processed : Nat
  ok : Nat
  fail : Nat
  status : BatchStatus
  warning : Option String
  result : Option JsObject
  error : Option String
  cancelled : Bool
  queues : List (List BatchEvent)
  finalEvent : Option BatchEvent
deriving DecidableEq

/-- Model of `new BatchTask(total)` with the generated id as a parameter. -/
def newBatchTask (id : String) (total : Nat) : BatchTask :=
  { id := id, total := total, processed := 0, ok := 0, fail := 0,
    status := BatchStatus.running, warning := none, result := none,
    error := none, cancelled := false, queues := [], finalEvent := none }

/-- The push closure created by `BatchTask.attach`: append only while the
queue holds fewer than 200 events, silently drop otherwise. -/
def pushBounded (q : List BatchEvent) (e : BatchEvent) : List BatchEvent :=
  if q.length < 200 then q ++ [e] else q

/-- Model of `BatchTask.attach`: register a fresh empty queue and return its
index as the handle. -/
def BatchTask.attach (t : BatchTask) : BatchTask × Nat :=
  ({ t with queues := t.queues ++ [[]] }, t.queues.length)

/-- Model of `BatchTask.detach`: remove the handle's queue from the list. -/
def BatchTask.detach (t : BatchTask) (i : Nat) : BatchTask :=
  { t with queues := t.queues.eraseIdx i }

/-- Model of the private `BatchTask.publish`: offer the event to every
attached queue through its bounded push. -/
def BatchTask.publish (t : BatchTask) (e : BatchEvent) : BatchTask :=
  { t with queues := t.queues.map (fun q => pushBounded q e) }

/-- Model of `BatchTask.record`: bump `processed` and `ok`/`fail`, then
broadcast a progress event. An empty `opts.error` string is falsy in the
source (`if (opts?.error)`) and is therefore omitted from the event. -/
def BatchTask.record (t : BatchTask) (success : Bool) (opts : RecordOpts) :
    BatchTask :=
  let t1 : BatchTask :=
    { t with processed := t.processed + 1,
             ok := if success then t.ok + 1 else t.ok,
             fail := if success then t.fail else t.fail + 1 }
  let eventError : Option String :=
    match opts.error with
    | some e => if e = "" then none else some e
    | none => none
  let ev := BatchEvent.progress t1.id t1.total t1.processed t1.ok t1.fail
    opts.item opts.detail eventError
  BatchTask.publish t1 ev

/-- Model of `BatchTask.finish`: unconditionally set status `done`, store the
terminal payload, cache the final event and broadcast it. -/
def BatchTask.finish (t : BatchTask) (result : JsObject)
    (warning : Option String) : BatchTask :=
  let t1 : BatchTask :=
    { t with status := BatchStatus.done, result := some result,
             warning := warning }
  let ev := BatchEvent.done t1.id t1.total t1.processed t1.ok t1.fail
    t1.warning result
  BatchTask.publish { t1 with finalEvent := some ev } ev

/-- Model of `BatchTask.failTask`: unconditionally set status `error`, store
the message, cache the final event and broadcast it. -/
def BatchTask.failTask (t : BatchTask) (error : String) : BatchTask :=
  let t1 : BatchTask := { t with status := BatchStatus.error, error := some error }
  let ev := BatchEvent.error t1.id t1.total t1.processed t1.ok t1.fail error
  BatchTask.publish { t1 with finalEvent := some ev } ev

/-- Model of `BatchTask.cancel`: set the cooperative flag only. -/
def BatchTask.cancel (t : BatchTask) : BatchTask :=
  { t with cancelled := true }

/-- Model of `BatchTask.finishCancelled`: unconditionally set status
`cancelled`, cache the final event and broadcast it. -/
def BatchTask.finishCancelled (t : BatchTask) : BatchTask :=
  let t1 : BatchTask := { t with status := BatchStatus.cancelled }
  let ev := BatchEvent.cancelled t1.id t1.total t1.processed t1.ok t1.fail
  BatchTask.publish { t1 with finalEvent := some ev } ev

/-- Model of `BatchTask.getFinalEvent`. -/
def BatchTask.getFinalEvent (t : BatchTask) : Option BatchEvent :=
  t.finalEvent

/-- Apply a sequence of `record` calls to a task. -/
def recordAll (t : BatchTask) (calls : List (Bool × RecordOpts)) : BatchTask :=
  calls.foldl (fun a c => BatchTask.record a c.1 c.2) t

/-- Broadcast a sequence of events to a task's subscribers. -/
def publishAll (t : BatchTask) (es : List BatchEvent) : BatchTask :=
  es.foldl BatchTask.publish t

/-- The global `TASKS` registry of `src/batch.ts`, modelled as explicit
state. -/
abbrev Registry : Type := List (String × BatchTask)

/-- Model of `createTask`: construct the task (with its generated id given as
a parameter) and store it under its id. -/
def createTask (reg : Registry) (id : String) (total : Nat) :
    BatchTask × Registry :=
  let task := newBatchTask id total
  (task, jsMapSet reg task.id task)

/-- Model of `getTask`. -/
def getTask (reg : Registry) (taskId : String) : Option BatchTask :=
  jsMapGet reg taskId

/-- Model of `deleteTask`. -/
def deleteTask (reg : Registry) (taskId : String) : Registry :=
  jsMapDelete reg taskId

/-- A registry operation performed by some caller. -/
inductive RegOp : Type
  | create (id : String) (total : Nat)
  | delete (id : String)
deriving DecidableEq

/-- Apply one registry operation. -/
def applyRegOp (reg : Registry) : RegOp → Registry
  | RegOp.create id total => (createTask reg id total).2
  | RegOp.delete id => deleteTask reg id

/-- Apply a sequence of registry operations. -/
def applyRegOps (reg : Registry) (ops : List RegOp) : Registry :=
  ops.foldl applyRegOp reg

/-- Whether a registry operation concerns a given id. -/
def regOpTouches : RegOp → String → Bool
  | RegOp.create i _, id => decide (i = id)
  | RegOp.delete i, id => decide (i = id)

/-- Whether a registry operation creates a given id. -/
def regOpCreates : RegOp → String → Bool
  | RegOp.create i _, id => decide (i = id)
  | RegOp.delete _, _ => false

/-- Per-item outcome stored in the result map of `runBatch`. An absent
`cancelled` field of the source's object literals is modelled as `false`
(it is only ever read for truthiness). -/
structure ItemResult (R : Type) : Type where
  ok : Bool
  data : Option R
  error : Option String
  cancelled : Bool
deriving DecidableEq

/-- Running state of the sequentialized `runBatch` executor: the result map,
the threaded optional task, and the clock counting per-item cancellation
checks performed so far (the index at which the time-varying cancellation
signal is sampled). -/
structure RunState (T R : Type) : Type where
  results : List (T × ItemResult R)
  task : Option BatchTask
  clock : Nat
deriving DecidableEq

/-- Model of `options.task?.cancelled ?? false`. -/
def taskCancelled : Option BatchTask → Bool
  | some t => t.cancelled
  | none => false

/-- Model of `processOne`: check the cancellation signal and the task flag;
if set, short-circuit to a cancelled entry without recording; otherwise run
the worker and record success or failure on the task. -/
def processOne {T R : Type} [DecidableEq T] (worker : T → Except String R)
    (shouldCancel : Nat → Bool) (st : RunState T R) (item : T) : RunState T R :=
  if shouldCancel st.clock || taskCancelled st.task then
    { st with
      results := jsMapSet st.results item
        { ok := false, data := none, error := some "cancelled", cancelled := true },
      clock := st.clock + 1 }
  else
    match worker item with
    | Except.ok data =>
      { results := jsMapSet st.results item
          { ok := true, data := some data, error := none, cancelled := false },
        task := st.task.map (fun t => BatchTask.record t true
          { item := none, detail := none, error := none }),
        clock := st.clock + 1 }
    | Except.error err =>
      { results := jsMapSet st.results item
          { ok := false, data := none, error := some err, cancelled := false },
        task := st.task.map (fun t => BatchTask.record t false
          { item := none, detail := none, error := some err }),
        clock := st.clock + 1 }

/-- Whether a worker promise resolved (`true`) or rejected (`false`). -/
def exceptOk {ε α : Type} : Except ε α → Bool
  | Except.ok _ => true
  | Except.error _ => false

/-- The result-map entry a non-cancelled item receives from `processOne`. -/
def itemOutcome {T R : Type} (worker : T → Except String R) (x : T) :
    ItemResult R :=
  match worker x with
  | Except.ok d => { ok := true, data := some d, error := none, cancelled := false }
  | Except.error e => { ok := false, data := none, error := some e, cancelled := false }

/-- Fuelled contiguous chunking, modelling `items.slice(i, i + batchSize)` of
the chunk loop; the fuel is the list length, which suffices whenever the
chunk width is at least 1 (the source clamps it with `Math.max(1, ...)`). -/
def chunksOfAux {α : Type} (B : Nat) : Nat → List α → List (List α)
  | _, [] => []
  | 0, l => [l]
  | fuel + 1, l => l.take B :: chunksOfAux B fuel (l.drop B)

/-- Contiguous chunks of width `B`. -/
def chunksOf {α : Type} (B : Nat) (l : List α) : List (List α) :=
  chunksOfAux B l.length l

/-- The chunk loop of `runBatch`: before each chunk, re-check the cancellation
signal and the task flag and break out if set; otherwise settle the whole
chunk before moving on. -/
def runBatchLoop {T R : Type} [DecidableEq T] (worker : T → Except String R)
    (shouldCancel : Nat → Bool) :
    List (List T) → RunState T R → RunState T R
  | [], st => st
  | chunk :: rest, st =>
    if shouldCancel st.clock || taskCancelled st.task then st
    else runBatchLoop worker shouldCancel rest
      (chunk.foldl (processOne worker shouldCancel) st)

/-- Model of `runBatch`: clamp the chunk width to at least 1 (default 50),
then run the chunk loop from an empty result map. -/
def runBatch {T R : Type} [DecidableEq T] (items : List T)
    (worker : T → Except String R) (batchSize : Option Nat)
    (task : Option BatchTask) (shouldCancel : Nat → Bool) : RunState T R :=
  let B := max 1 (batchSize.getD 50)
  runBatchLoop worker shouldCancel (chunksOf B items)
    { results := [], task := task, clock := 0 }

/-- Big-endian 32-bit read, modelling
`(b1 << 24 | b2 << 16 | b3 << 8 | b4) >>> 0` on `Uint8Array` entries. -/
def be32 (b1 b2 b3 b4 : Nat) : Nat :=
  b1 % 256 * 2 ^ 24 + b2 % 256 * 2 ^ 16 + b3 % 256 * 2 ^ 8 + b4 % 256

/-- The four big-endian bytes of a 32-bit length. -/
def beBytes4 (n : Nat) : List Nat :=
  [n / 2 ^ 24 % 256, n / 2 ^ 16 % 256, n / 2 ^ 8 % 256, n % 256]

/-- Model of `TypedArray.set(src, offset)` on a buffer large enough to hold
the source. -/
def typedArraySet (dst : List Nat) (src : List Nat) (offset : Nat) :
    List Nat :=
  dst.take offset ++ src ++ dst.drop (offset + src.length)

namespace GrpcWebClient

/-- Model of `GrpcWebClient.encodePayload`: allocate a zero frame of
`5 + length` bytes, write the uncompressed flag and the four big-endian
length bytes (as the source's shift-and-mask does, i.e. on the length taken
mod 2^32), then copy the payload at offset 5. -/
def encodePayload (data : List Nat) : List Nat :=
  let length := data.length
  let frame0 := List.replicate (5 + length) 0
  let frame1 := frame0.set 0 0
  let frame2 := frame1.set 1 (length % 2 ^ 32 / 2 ^ 24 % 256)
  let frame3 := frame2.set 2 (length % 2 ^ 32 / 2 ^ 16 % 256)
  let frame4 := frame3.set 3 (length % 2 ^ 32 / 2 ^ 8 % 256)
  let frame5 := frame4.set 4 (length % 2 ^ 32 % 256)
  typedArraySet frame5 data 5

end GrpcWebClient

/-- Parse the UTF-8 text of one trailer frame into the trailer map: split on
`\r?\n`, keep lines that are nonempty after trimming, and for each line with
a colon at a positive index store the lowercased trimmed key and the trimmed,
percent-decoded (falling back to raw) value. -/
def parseTrailerText (trailers : JsMap) (payload : List Nat) : JsMap :=
  let text := utf8DecodeReplace payload
  let lines := splitLinesJS text
  let lines := lines.filter (fun l => decide (jsTrim l ≠ ""))
  lines.foldl (fun tr line =>
    match line.toList.findIdx? (fun c => decide (c = ':')) with
    | some colonIdx =>
      if 0 < colonIdx then
        let key := (jsTrim (String.mk (line.toList.take colonIdx))).toLower
        let raw := jsTrim (String.mk (line.toList.drop (colonIdx + 1)))
        let value := (decodeURIComponentJS raw).getD raw
        jsMapSet tr key value
      else tr
    | none => tr) trailers

/-- Fuelled frame loop of `GrpcWebClient.parseResponse`: stop cleanly when
fewer than 5 header bytes or fewer than `length` payload bytes remain; a
trailer frame (top flag bit) extends the trailer map, a compressed frame
(flag bit 1) fails hard, any other frame is collected as a message. The fuel
is the byte count, which strictly dominates the loop's progress. -/
def parseFramesAux : Nat → List Nat → List (List Nat) → JsMap →
    Except String (List (List Nat) × JsMap)
  | 0, _, msgs, trailers => Except.ok (msgs, trailers)
  | fuel + 1, bytes, msgs, trailers =>
    if bytes.length < 5 then Except.ok (msgs, trailers)
    else
      let f := bytes.getD 0 0
      let len := be32 (bytes.getD 1 0) (bytes.getD 2 0) (bytes.getD 3 0)
        (bytes.getD 4 0)
      let rest := bytes.drop 5
      if rest.length < len then Except.ok (msgs, trailers)
      else
        let payload := rest.take len
        let rest1 := rest.drop len
        if f &&& 0x80 ≠ 0 then
          parseFramesAux fuel rest1 msgs (parseTrailerText trailers payload)
        else if f &&& 0x01 ≠ 0 then
          Except.error "gRPC-Web compressed messages not supported"
        else
          parseFramesAux fuel rest1 (msgs ++ [payload]) trailers

/-- Result of `GrpcWebClient.parseResponse`. -/
structure ParsedResponse : Type where
  messages : List (List Nat)
  trailers : JsMap
deriving DecidableEq

namespace GrpcWebClient

/-- Model of `GrpcWebClient.parseResponse` on the binary transport (the
`grpc-web-text` base64 branch is not taken, matching a call with no text
content type). The `Headers` collaborator is abstracted to the two reads the
source performs: `headerStatus` and `headerMessage` are the values of
`headers.get("grpc-status")` and `headers.get("grpc-message")`, with `none`
covering both an absent `Headers` object and a `null` read; an empty string
is falsy in the source's guards and merges nothing. -/
def parseResponse (body : List Nat) (headerStatus headerMessage : Option String) :
    Except String ParsedResponse :=
  match parseFramesAux body.length body [] [] with
  | Except.error e => Except.error e
  | Except.ok (msgs, tr0) =>
    let tr1 :=
      match headerStatus with
      | some s =>
        if s ≠ "" ∧ jsMapHas tr0 "grpc-status" = false then
          jsMapSet tr0 "grpc-status" s
        else tr0
      | none => tr0
    let tr2 :=
      match headerMessage with
      | some msg =>
        if msg ≠ "" ∧ jsMapHas tr1 "grpc-message" = false then
          jsMapSet tr1 "grpc-message" ((decodeURIComponentJS msg).getD msg)
        else tr1
      | none => tr1
    Except.ok { messages := msgs, trailers := tr2 }

/-- Decoded gRPC status, `GrpcWebClient.getStatus`. -/
structure GrpcStatus : Type where
  code : Int
  message : String
  ok : Bool
  httpEquiv : Nat
deriving DecidableEq

/-- The fixed `httpEquivMap` table of the source. -/
def httpEquivMap (code : Int) : Option Nat :=
  if code = 0 then some 200
  else if code = 16 then some 401
  else if code = 7 then some 403
  else if code = 8 then some 429
  else if code = 4 then some 504
  else if code = 14 then some 503
  else none

/-- Model of `GrpcWebClient.getStatus`. The source computes
`parseInt(codeStr, 10) || -1`; both `NaN` and `0` are falsy in JavaScript,
so a parsed code of 0 collapses to -1 here exactly as it does there. -/
def getStatus (trailers : JsMap) : GrpcStatus :=
  let codeStr := (jsMapGet trailers "grpc-status").getD "-1"
  let message := (jsMapGet trailers "grpc-message").getD ""
  let code : Int :=
    match parseIntJS codeStr with
    | some c => if c = 0 then -1 else c
    | none => -1
  { code := code, message := message,
    ok := decide (code = 0) || decide (code = -1),
    httpEquiv := (httpEquivMap code).getD 502 }

end GrpcWebClient

/-- Whether an event is terminal (`done`, `error` or `cancelled`). -/
def isTerminal : BatchEvent → Bool
  | BatchEvent.progress _ _ _ _ _ _ _ _ => false
  | BatchEvent.done _ _ _ _ _ _ _ => true
  | BatchEvent.error _ _ _ _ _ _ => true
  | BatchEvent.cancelled _ _ _ _ _ => true

/-- Lowercase hexadecimal digit. -/
def hexDigit (n : Nat) : String :=
  String.singleton (if n < 10 then Char.ofNat ('0'.toNat + n)
    else Char.ofNat ('a'.toNat + (n - 10)))

/-- JSON escaping of one character, as `JSON.stringify` performs it. -/
def jsonEscapeChar (c : Char) : String :=
  if c = '"' then "\\\""
  else if c = '\\' then "\\\\"
  else if c = '\n' then "\\n"
  else if c = '\r' then "\\r"
  else if c = '\t' then "\\t"
  else if c.toNat = 8 then "\\b"
  else if c.toNat = 12 then "\\f"
  else if c.toNat < 32 then "\\u00" ++ hexDigit (c.toNat / 16) ++ hexDigit (c.toNat % 16)
  else String.singleton c

/-- JSON escaping of a string body. -/
def jsonEscape (s : String) : String :=
  String.join (s.toList.map jsonEscapeChar)

/-- A JSON string literal. -/
def jsonStr (s : String) : String :=
  "\"" ++ jsonEscape s ++ "\""

/-- A JSON object from pre-rendered field values, in insertion order and
without whitespace, as `JSON.stringify` emits it. -/
def jsonObjFields (fs : List (String × String)) : String :=
  "\x7b" ++ String.intercalate "," (fs.map (fun p => jsonStr p.1 ++ ":" ++ p.2)) ++ "\x7d"

/-- JSON serialization of a batch event: mandatory fields in literal order,
optional fields present only when defined, exactly as `JSON.stringify`
renders the source's event objects. -/
def eventJson : BatchEvent → String
  | BatchEvent.progress id total processed ok fail item detail err =>
    jsonObjFields ([("type", jsonStr "progress"), ("task_id", jsonStr id),
      ("total", toString total), ("processed", toString processed),
      ("ok", toString ok), ("fail", toString fail)]
      ++ (match item with | some s => [("item", jsonStr s)] | none => [])
      ++ (match detail with | some s => [("detail", jsonStr s)] | none => [])
      ++ (match err with | some s => [("error", jsonStr s)] | none => []))
  | BatchEvent.done id total processed ok fail warning result =>
    jsonObjFields ([("type", jsonStr "done"), ("task_id", jsonStr id),
      ("total", toString total), ("processed", toString processed),
      ("ok", toString ok), ("fail", toString fail)]
      ++ (match warning with | some s => [("warning", jsonStr s)] | none => [])
      ++ [("result", jsonObjFields (result.map (fun p => (p.1, jsonStr p.2))))])
  | BatchEvent.error id total processed ok fail err =>
    jsonObjFields [("type", jsonStr "error"), ("task_id", jsonStr id),
      ("total", toString total), ("processed", toString processed),
      ("ok", toString ok), ("fail", toString fail), ("error", jsonStr err)]
  | BatchEvent.cancelled id total processed ok fail =>
    jsonObjFields [("type", jsonStr "cancelled"), ("task_id", jsonStr id),
      ("total", toString total), ("processed", toString processed),
      ("ok", toString ok), ("fail", toString fail)]

/-- One outbound SSE line, `data: <JSON>\n\n`. -/
def sseLine (e : BatchEvent) : String :=
  "data: " ++ eventJson e ++ "\n\n"

/-- The synthetic initial snapshot event sent by `createBatchEventStream`. -/
def syntheticProgress (t : BatchTask) : BatchEvent :=
  BatchEvent.progress t.id t.total t.processed t.ok t.fail none none none

/-- State of one `createBatchEventStream` publisher: the handle's queue, the
SSE lines enqueued so far in order, and whether the stream was closed and the
handle detached. -/
structure StreamState : Type where
  queue : List BatchEvent
  sent : List String
  closed : Bool
  detached : Bool
deriving DecidableEq

/-- The `while (handle.queue.length > 0)` drain of one poll tick: shift and
send events in order; on the first terminal event stop polling, detach and
close. The fuel is the queue length. -/
def drainLoop : Nat → StreamState → StreamState
  | 0, st => st
  | fuel + 1, st =>
    match st.queue with
    | [] => st
    | e :: rest =>
      let st1 : StreamState := { st with queue := rest, sent := st.sent ++ [sseLine e] }
      if isTerminal e then { st1 with closed := true, detached := true }
      else drainLoop fuel st1

/-- One `setInterval` tick: a closed stream's interval has been cleared, so
the tick does nothing; otherwise drain the queue. -/
def pollTick (st : StreamState) : StreamState :=
  if st.closed then st else drainLoop st.queue.length st

/-- Events reaching the handle's queue between ticks. A detached handle has
been removed from the task's queue list, so nothing reaches it. -/
def deliver (st : StreamState) (es : List BatchEvent) : StreamState :=
  if st.detached then st else { st with queue := st.queue ++ es }

/-- Stream start, `createBatchEventStream`: attach a fresh handle and send
the synthetic progress snapshot of the task's current counters. -/
def streamStart (t : BatchTask) : StreamState :=
  { queue := [], sent := [sseLine (syntheticProgress t)], closed := false,
    detached := false }

/-- Run the publisher: alternately receive a batch of queued events and run
one poll tick. -/
def runStream (t : BatchTask) (bs : List (List BatchEvent)) : StreamState :=
  bs.foldl (fun st batch => pollTick (deliver st batch)) (streamStart t)

/-- The list up to and including the first element satisfying `p`. -/
def takeUntilIncl {α : Type} (p : α → Bool) : List α → List α
  | [] => []
  | a :: l => if p a then [a] else a :: takeUntilIncl p l

/-- The suffix remaining after the first element satisfying `p` (empty when no
element satisfies it). -/
def restAfterTerm {α : Type} (p : α → Bool) : List α → List α
  | [] => []
  | a :: l => if p a then l else restAfterTerm p l

/-! Basic lemmas about the `Map` model. -/

theorem jsMapGet_set_self {K V : Type} [DecidableEq K] (m : List (K × V))
    (k : K) (v : V) : jsMapGet (jsMapSet m k v) k = some v := by
  induction m with
  | nil => simp [jsMapSet, jsMapGet]
  | cons p t ih =>
    by_cases h : p.1 = k
    · simp [jsMapSet, jsMapGet, h]
    · simp [jsMapSet, jsMapGet, h, ih]

theorem jsMapGet_set_ne {K V : Type} [DecidableEq K] (m : List (K × V))
    (k x : K) (v : V) (h : x ≠ k) :
    jsMapGet (jsMapSet m k v) x = jsMapGet m x := by
  induction m with
  | nil => simp [jsMapSet, jsMapGet, Ne.symm h]
  | cons p t ih =>
    by_cases hp : p.1 = k
    · simp [jsMapSet, jsMapGet, hp, Ne.symm h]
    · simp [jsMapSet, jsMapGet, hp, ih]

theorem jsMapHas_cons {K V : Type} [DecidableEq K] (p : K × V)
    (t : List (K × V)) (k : K) :
    jsMapHas (p :: t) k = (decide (p.1 = k) || jsMapHas t k) := by
  simp [jsMapHas]

theorem jsMapDelete_cons {K V : Type} [DecidableEq K] (p : K × V)
    (t : List (K × V)) (k : K) :
    jsMapDelete (p :: t) k
      = if p.1 = k then jsMapDelete t k else p :: jsMapDelete t k := by
  by_cases h : p.1 = k <;> simp [jsMapDelete, List.filter_cons, h]

theorem jsMapGet_of_not_has {K V : Type} [DecidableEq K] (m : List (K × V))
    (k : K) (h : jsMapHas m k = false) : jsMapGet m k = none := by
  induction m with
  | nil => simp [jsMapGet]
  | cons p t ih =>
    rw [jsMapHas_cons] at h
    simp only [Bool.or_eq_false_iff, decide_eq_false_iff_not] at h
    simp [jsMapGet, h.1, ih h.2]

theorem jsMapHas_set_ne {K V : Type} [DecidableEq K] (m : List (K × V))
    (k x : K) (v : V) (h : x ≠ k) :
    jsMapHas (jsMapSet m k v) x = jsMapHas m x := by
  induction m with
  | nil => simp [jsMapSet, jsMapHas, Ne.symm h]
  | cons p t ih =>
    by_cases hp : p.1 = k
    · rw [jsMapSet, if_pos hp, jsMapHas_cons, jsMapHas_cons, hp]
    · rw [jsMapSet, if_neg hp, jsMapHas_cons, jsMapHas_cons, ih]

theorem jsMapGet_delete_self {K V : Type} [DecidableEq K] (m : List (K × V))
    (k : K) : jsMapGet (jsMapDelete m k) k = none := by
  induction m with
  | nil => simp [jsMapDelete, jsMapGet]
  | cons p t ih =>
    rw [jsMapDelete_cons]
    by_cases hp : p.1 = k
    · simpa [hp] using ih
    · simpa [jsMapGet, hp] using ih

theorem jsMapGet_delete_ne {K V : Type} [DecidableEq K] (m : List (K × V))
    (k x : K) (h : x ≠ k) :
    jsMapGet (jsMapDelete m k) x = jsMapGet m x := by
  induction m with
  | nil => simp [jsMapDelete, jsMapGet]
  | cons p t ih =>
    rw [jsMapDelete_cons]
    by_cases hp : p.1 = k
    · rw [if_pos hp, ih]
      have hkx : ¬ (p.1 = x) := by rw [hp]; exact Ne.symm h
      simp [jsMapGet, hkx]
    · rw [if_neg hp]
      by_cases hx : p.1 = x
      · simp [jsMapGet, hx]
      · simp [jsMapGet, hx, ih]

theorem jsMapHas_delete_false {K V : Type} [DecidableEq K] (m : List (K × V))
    (k x : K) (h : jsMapHas m x = false) :
    jsMapHas (jsMapDelete m k) x = false := by
  induction m with
  | nil => simp [jsMapDelete, jsMapHas]
  | cons p t ih =>
    rw [jsMapHas_cons] at h
    simp only [Bool.or_eq_false_iff, decide_eq_false_iff_not] at h
    rw [jsMapDelete_cons]
    by_cases hp : p.1 = k
    · simpa [hp] using ih h.2
    · rw [if_neg hp, jsMapHas_cons]
      simp [h.1, ih h.2]

theorem jsMapDelete_of_not_has {K V : Type} [DecidableEq K] (m : List (K × V))
    (k : K) (h : jsMapHas m k = false) : jsMapDelete m k = m := by
  induction m with
  | nil => simp [jsMapDelete]
  | cons p t ih =>
    rw [jsMapHas_cons] at h
    simp only [Bool.or_eq_false_iff, decide_eq_false_iff_not] at h
    rw [jsMapDelete_cons, if_neg h.1, ih h.2]

/-! Lemmas about the task registry. -/

theorem getTask_applyRegOps (reg : Registry) (id : String) (t : BatchTask)
    (ops : List RegOp) (hget : getTask reg id = some t)
    (hops : ∀ op ∈ ops, regOpTouches op id = false) :
    getTask (applyRegOps reg ops) id = some t := by
  induction ops generalizing reg with
  | nil => simpa [applyRegOps]
  | cons op rest ih =>
    have hop : regOpTouches op id = false := hops op (by simp)
    have hrest : ∀ op ∈ rest, regOpTouches op id = false := by
      intro o ho; exact hops o (by simp [ho])
    have hstep : getTask (applyRegOp reg op) id = some t := by
      cases op with
      | create i total =>
        have hne : id ≠ i := by
          simp [regOpTouches] at hop
          exact fun hh => hop hh.symm
        simpa [applyRegOp, createTask, getTask]
          using (jsMapGet_set_ne reg i id (newBatchTask i total) hne).trans hget
      | delete i =>
        have hne : id ≠ i := by
          simp [regOpTouches] at hop
          exact fun hh => hop hh.symm
        simpa [applyRegOp, deleteTask, getTask]
          using (jsMapGet_delete_ne reg i id hne).trans hget
    have : applyRegOps reg (op :: rest) = applyRegOps (applyRegOp reg op) rest := by
      simp [applyRegOps]
    rw [this]
    exact ih _ hstep hrest

theorem jsMapHas_applyRegOps (reg : Registry) (id : String) (ops : List RegOp)
    (h : jsMapHas reg id = false)
    (hops : ∀ op ∈ ops, regOpCreates op id = false) :
    jsMapHas (applyRegOps reg ops) id = false := by
  induction ops generalizing reg with
  | nil => simpa [applyRegOps]
  | cons op rest ih =>
    have hop : regOpCreates op id = false := hops op (by simp)
    have hrest : ∀ op ∈ rest, regOpCreates op id = false := by
      intro o ho; exact hops o (by simp [ho])
    have hstep : jsMapHas (applyRegOp reg op) id = false := by
      cases op with
      | create i total =>
        have hne : id ≠ i := by
          simp [regOpCreates] at hop
          exact fun hh => hop hh.symm
        simpa [applyRegOp, createTask]
          using (jsMapHas_set_ne reg i id (newBatchTask i total) hne).trans h
      | delete i =>
        simpa [applyRegOp, deleteTask] using jsMapHas_delete_false reg i id h
    have : applyRegOps reg (op :: rest) = applyRegOps (applyRegOp reg op) rest := by
      simp [applyRegOps]
    rw [this]
    exact ih _ hstep hrest

/-- Claim C9: a created task is found under its id for as long as no
operation deletes (or, by uuid uniqueness, re-creates) that id; a deleted or
never-created id yields an absent result rather than an exception; deleting
an unknown id is a no-op, and deleting any id leaves every other entry
untouched. -/
theorem C9_registry_contract (reg : Registry) (id : String) (total : Nat)
    (ops : List RegOp) (hops : ∀ op ∈ ops, regOpTouches op id = false) :
    getTask (applyRegOps (createTask reg id total).2 ops) id
      = some (createTask reg id total).1 ∧
    (∀ (reg1 : Registry) (i : String), getTask (deleteTask reg1 i) i = none) ∧
    (∀ (i : String) (ops1 : List RegOp),
      (∀ op ∈ ops1, regOpCreates op i = false) →
      getTask (applyRegOps [] ops1) i = none) ∧
    (∀ (reg1 : Registry) (i : String), jsMapHas reg1 i = false →
      deleteTask reg1 i = reg1) ∧
    (∀ (reg1 : Registry) (i j : String), j ≠ i →
      getTask (deleteTask reg1 i) j = getTask reg1 j) := by
  refine ⟨?_, ?_, ?_, ?_, ?_⟩
  · refine getTask_applyRegOps _ _ _ _ ?_ hops
    simp [createTask, getTask, newBatchTask, jsMapGet_set_self]
  · intro reg1 i
    simp [deleteTask, getTask, jsMapGet_delete_self]
  · intro i ops1 h1
    have hempty : jsMapHas ([] : Registry) i = false := by simp [jsMapHas]
    exact jsMapGet_of_not_has _ _ (jsMapHas_applyRegOps [] i ops1 hempty h1)
  · intro reg1 i h1
    simpa [deleteTask] using jsMapDelete_of_not_has reg1 i h1
  · intro reg1 i j hne
    simpa [deleteTask, getTask] using jsMapGet_delete_ne reg1 i j hne

/-- Witness for C9 at a concrete registry history. -/
theorem C9_registry_contract_witness :
    getTask (applyRegOps (createTask [] "a" 1).2
      [RegOp.create "b" 2, RegOp.delete "c"]) "a"
      = some (createTask [] "a" 1).1 :=
  (C9_registry_contract [] "a" 1 [RegOp.create "b" 2, RegOp.delete "c"]
    (by decide)).1

/-- Claim C2 (code bug): on a trailer map carrying `grpc-status: "0"` the
source's `parseInt(codeStr, 10) || -1` collapses the parsed 0 to -1 (both
`0` and `NaN` are falsy), so `getStatus` returns
`{code := -1, ok := true, httpEquiv := 502}` and the claimed
`{code := 0, ok := true, httpEquiv := 200}` is unreachable, even though the
source's own `httpEquivMap` carries the entry `0 → 200`; a nonzero code such
as 16 is decoded as the claim's table describes. -/
theorem C2_getStatus_zero_evaluation :
    GrpcWebClient.getStatus [("grpc-status", "0"), ("grpc-message", "ok")] =
      { code := -1, message := "ok", ok := true, httpEquiv := 502 } ∧
    GrpcWebClient.getStatus [("grpc-status", "16"), ("grpc-message", "no")] =
      { code := 16, message := "no", ok := false, httpEquiv := 401 } := by
  constructor <;> decide

/-- The frame built by `encodePayload` is the flag byte, the four masked
length bytes and the payload. -/
theorem typedArraySet_frame (b1 b2 b3 b4 : Nat) (p : List Nat) :
    typedArraySet ((((((List.replicate (5 + p.length) (0 : Nat)).set 0 0).set 1
      b1).set 2 b2).set 3 b3).set 4 b4) p 5 = 0 :: b1 :: b2 :: b3 :: b4 :: p := by
  have hrep : List.replicate (5 + p.length) (0 : Nat)
      = 0 :: 0 :: 0 :: 0 :: 0 :: List.replicate p.length 0 := by
    rw [List.replicate_add]; rfl
  rw [hrep]
  show (0 :: b1 :: b2 :: b3 :: b4 :: List.replicate p.length 0).take 5 ++ p ++
      (0 :: b1 :: b2 :: b3 :: b4 :: List.replicate p.length 0).drop
        (5 + p.length) = _
  rw [List.drop_eq_nil_of_le
    (by simp only [List.length_cons, List.length_replicate]; omega)]
  have htake : (0 :: b1 :: b2 :: b3 :: b4 :: List.replicate p.length 0).take 5
      = [0, b1, b2, b3, b4] := rfl
  rw [htake]
  simp

/-- Closed form of `encodePayload`. -/
theorem encodePayload_frame_eq (p : List Nat) :
    GrpcWebClient.encodePayload p =
      0 :: [p.length % 2 ^ 32 / 2 ^ 24 % 256, p.length % 2 ^ 32 / 2 ^ 16 % 256,
        p.length % 2 ^ 32 / 2 ^ 8 % 256, p.length % 2 ^ 32 % 256] ++ p := by
  unfold GrpcWebClient.encodePayload
  exact typedArraySet_frame _ _ _ _ p

/-- Claim C6: for every payload whose length fits 32 bits, `encodePayload`
produces the flag byte 0x00, the 4-byte big-endian length and the payload;
the four length bytes decode back to the length, and the concrete example
`[1,2,3]` yields exactly `[0,0,0,0,3,1,2,3]`. -/
theorem C6_encodePayload_frame (p : List Nat) (h : p.length < 2 ^ 32) :
    GrpcWebClient.encodePayload p = 0 :: beBytes4 p.length ++ p ∧
    be32 (p.length / 2 ^ 24 % 256) (p.length / 2 ^ 16 % 256)
      (p.length / 2 ^ 8 % 256) (p.length % 256) = p.length ∧
    GrpcWebClient.encodePayload [1, 2, 3] = [0, 0, 0, 0, 3, 1, 2, 3] := by
  refine ⟨?_, ?_, by decide⟩
  · rw [encodePayload_frame_eq]
    have h4 : p.length < 4294967296 := by simpa using h
    have hmod : p.length % 4294967296 = p.length := Nat.mod_eq_of_lt h4
    simp [beBytes4, hmod]
  · simp only [be32]
    omega

/-- Witness for C6 at the concrete payload `[1,2,3]`. -/
theorem C6_encodePayload_frame_witness :
    GrpcWebClient.encodePayload [1, 2, 3]
      = 0 :: beBytes4 ([1, 2, 3] : List Nat).length ++ [1, 2, 3] :=
  (C6_encodePayload_frame [1, 2, 3] (by decide)).1

/-! Lemmas about `record` and the task counters. -/

theorem record_counters (t : BatchTask) (s : Bool) (o : RecordOpts) :
    (BatchTask.record t s o).processed = t.processed + 1 ∧
    (BatchTask.record t s o).ok + (BatchTask.record t s o).fail
      = t.ok + t.fail + 1 ∧
    (BatchTask.record t s o).total = t.total ∧
    (BatchTask.record t s o).cancelled = t.cancelled ∧
    t.ok ≤ (BatchTask.record t s o).ok ∧
    t.fail ≤ (BatchTask.record t s o).fail := by
  cases s <;> simp [BatchTask.record, BatchTask.publish] <;> omega

theorem recordAll_counters (calls : List (Bool × RecordOpts)) (t : BatchTask) :
    (recordAll t calls).processed = t.processed + calls.length ∧
    (recordAll t calls).ok + (recordAll t calls).fail
      = t.ok + t.fail + calls.length ∧
    (recordAll t calls).total = t.total := by
  induction calls generalizing t with
  | nil => simp [recordAll]
  | cons c rest ih =>
    have hstep := record_counters t c.1 c.2
    have hrec : recordAll t (c :: rest) = recordAll (BatchTask.record t c.1 c.2) rest := by
      simp [recordAll]
    rw [hrec]
    obtain ⟨h1, h2, h3⟩ := ih (BatchTask.record t c.1 c.2)
    have hlen : (c :: rest).length = rest.length + 1 := by simp
    refine ⟨?_, ?_, ?_⟩
    · rw [h1, hstep.1, hlen]; omega
    · rw [h2, hstep.2.1, hlen]; omega
    · rw [h3, hstep.2.2.1]

/-- Counterexample to claim C3 as stated: two `record` calls on a task with
`total = 1` drive `processed` to 2 > 1 = `total`; the code never guards
`processed ≤ total` against over-recording. -/
theorem C3_counterexample :
    ¬ ((recordAll (newBatchTask "t" 1)
        [(true, ⟨none, none, none⟩), (false, ⟨none, none, none⟩)]).processed ≤
      (recordAll (newBatchTask "t" 1)
        [(true, ⟨none, none, none⟩), (false, ⟨none, none, none⟩)]).total) := by
  decide

/-- Claim C3 (amended): after any sequence of `record` calls on a fresh task,
`ok + fail = processed` and `processed` equals the number of calls, so
`processed ≤ total` holds exactly when the callers respect the
at-most-one-record-per-item contract (at most `total` calls); each single
`record` call increases `processed` by one and never decreases `ok` or
`fail`. -/
theorem C3_record_invariant (id : String) (total : Nat)
    (calls : List (Bool × RecordOpts)) :
    (recordAll (newBatchTask id total) calls).ok
        + (recordAll (newBatchTask id total) calls).fail
      = (recordAll (newBatchTask id total) calls).processed ∧
    (recordAll (newBatchTask id total) calls).processed = calls.length ∧
    (calls.length ≤ total →
      (recordAll (newBatchTask id total) calls).processed
        ≤ (recordAll (newBatchTask id total) calls).total) ∧
    (∀ (u : BatchTask) (s : Bool) (o : RecordOpts),
      u.processed ≤ (BatchTask.record u s o).processed ∧
      u.ok ≤ (BatchTask.record u s o).ok ∧
      u.fail ≤ (BatchTask.record u s o).fail) := by
  obtain ⟨h1, h2, h3⟩ := recordAll_counters calls (newBatchTask id total)
  have hp0 : (newBatchTask id total).processed = 0 := rfl
  have hok0 : (newBatchTask id total).ok = 0 := rfl
  have hf0 : (newBatchTask id total).fail = 0 := rfl
  have ht0 : (newBatchTask id total).total = total := rfl
  rw [hp0] at h1
  rw [hok0, hf0] at h2
  rw [ht0] at h3
  refine ⟨by omega, by omega, ?_, ?_⟩
  · intro hle
    omega
  · intro u s o
    have h := record_counters u s o
    exact ⟨by rw [h.1]; omega, h.2.2.2.2.1, h.2.2.2.2.2⟩

/-- Witness for C3 (amended): a single call on a task of total 2 keeps
`processed ≤ total`. -/
theorem C3_record_invariant_witness :
    (recordAll (newBatchTask "t" 2) [(true, ⟨none, none, none⟩)]).processed
      ≤ (recordAll (newBatchTask "t" 2) [(true, ⟨none, none, none⟩)]).total :=
  (C3_record_invariant "t" 2 [(true, ⟨none, none, none⟩)]).2.2.1 (by decide)

/-- Counterexample to claim C4 as stated: `failTask` after `finish` is
neither an idempotent no-op nor a rejection — the status really moves from
the terminal `done` to the different terminal `error`. -/
theorem C4_counterexample :
    (BatchTask.failTask (BatchTask.finish (newBatchTask "t" 1) [] none)
        "boom").status = BatchStatus.error ∧
    (BatchTask.finish (newBatchTask "t" 1) [] none).status = BatchStatus.done ∧
    (BatchTask.failTask (BatchTask.finish (newBatchTask "t" 1) [] none)
        "boom").status
      ≠ (BatchTask.finish (newBatchTask "t" 1) [] none).status := by
  refine ⟨rfl, rfl, by decide⟩

/-- Claim C4 (amended): the terminal transitions are not guarded at all —
each of `finish`, `failTask` and `finishCancelled` unconditionally installs
its own terminal status, overwrites the cached final event and broadcasts
again, whatever the previous status was; in particular a terminal status can
transition to a different terminal status. -/
theorem C4_terminal_unguarded (t : BatchTask) (r : JsObject)
    (w : Option String) (e : String) :
    (BatchTask.finish t r w).status = BatchStatus.done ∧
    (BatchTask.failTask t e).status = BatchStatus.error ∧
    (BatchTask.finishCancelled t).status = BatchStatus.cancelled ∧
    (BatchTask.failTask (BatchTask.finish t r w) e).status
      = BatchStatus.error ∧
    (BatchTask.failTask t e).finalEvent
      = some (BatchEvent.error t.id t.total t.processed t.ok t.fail e) ∧
    (BatchTask.failTask t e).queues = t.queues.map (fun q =>
      pushBounded q (BatchEvent.error t.id t.total t.processed t.ok t.fail e)) :=
  ⟨rfl, rfl, rfl, rfl, rfl, rfl⟩

/-! Lemmas about broadcast queues. -/

theorem foldl_pushBounded (es : List BatchEvent) (q : List BatchEvent) :
    es.foldl pushBounded q = q ++ es.take (200 - q.length) := by
  induction es generalizing q with
  | nil => simp
  | cons e rest ih =>
    by_cases h : q.length < 200
    · have hpb : pushBounded q e = q ++ [e] := by simp [pushBounded, h]
      have hn : 200 - q.length = (200 - (q.length + 1)) + 1 := by omega
      calc (e :: rest).foldl pushBounded q = rest.foldl pushBounded (q ++ [e]) := by
            simp [hpb]
        _ = (q ++ [e]) ++ rest.take (200 - (q ++ [e]).length) := ih (q ++ [e])
        _ = q ++ (e :: rest).take (200 - q.length) := by
            rw [hn]; simp [List.take_succ_cons]
    · have hpb : pushBounded q e = q := by simp [pushBounded, h]
      have hn : 200 - q.length = 0 := by omega
      calc (e :: rest).foldl pushBounded q = rest.foldl pushBounded q := by
            simp [hpb]
        _ = q ++ rest.take (200 - q.length) := ih q
        _ = q ++ (e :: rest).take (200 - q.length) := by rw [hn]; simp

theorem publishAll_queues (t : BatchTask) (es : List BatchEvent) :
    (publishAll t es).queues = t.queues.map (fun q => es.foldl pushBounded q) := by
  induction es generalizing t with
  | nil => simp [publishAll]
  | cons e rest ih =>
    have h1 : publishAll t (e :: rest) = publishAll (BatchTask.publish t e) rest := by
      simp [publishAll]
    rw [h1, ih]
    simp [BatchTask.publish, List.map_map]

/-- Claim C7: a sequence of publishes appends to every attached queue, in
emission order, exactly the prefix of the published events that fits under
the capacity of 200 computed from that queue's own length — so a queue at
capacity silently drops new events without affecting the producer or the
other queues, and a freshly attached subscriber's queue receives the strict
in-order prefix of the first 200 events. -/
theorem C7_broadcast_bounded (t : BatchTask) (es : List BatchEvent) :
    (publishAll t es).queues
      = t.queues.map (fun q => q ++ es.take (200 - q.length)) ∧
    (publishAll (BatchTask.attach t).1 es).queues
      = t.queues.map (fun q => q ++ es.take (200 - q.length)) ++ [es.take 200] := by
  constructor
  · rw [publishAll_queues]
    simp [foldl_pushBounded]
  · rw [publishAll_queues]
    simp [BatchTask.attach, foldl_pushBounded]

/-! Lemmas about the frame parser. -/

theorem be32_beBytes (L : Nat) (h : L < 2 ^ 32) :
    be32 (L / 2 ^ 24 % 256) (L / 2 ^ 16 % 256) (L / 2 ^ 8 % 256) (L % 256)
      = L := by
  simp only [be32]
  omega

theorem parseFramesAux_nil (fuel : Nat) (msgs : List (List Nat))
    (trailers : JsMap) :
    parseFramesAux fuel [] msgs trailers = Except.ok (msgs, trailers) := by
  cases fuel <;> simp [parseFramesAux]

theorem parseFramesAux_fuel (f1 : Nat) (f2 : Nat) (bytes : List Nat)
    (msgs : List (List Nat)) (trailers : JsMap) (h1 : bytes.length ≤ f1)
    (h2 : bytes.length ≤ f2) :
    parseFramesAux f1 bytes msgs trailers
      = parseFramesAux f2 bytes msgs trailers := by
  induction f1 generalizing f2 bytes msgs trailers with
  | zero =>
    have hb : bytes = [] := List.length_eq_zero.mp (Nat.le_zero.mp h1)
    subst hb
    rw [parseFramesAux_nil, parseFramesAux_nil]
  | succ f ih =>
    cases f2 with
    | zero =>
      have hb : bytes = [] := List.length_eq_zero.mp (Nat.le_zero.mp h2)
      subst hb
      rw [parseFramesAux_nil, parseFramesAux_nil]
    | succ g =>
      by_cases h5 : bytes.length < 5
      · simp [parseFramesAux, h5]
      · have hf : ((bytes.drop 5).drop (be32 (bytes.getD 1 0) (bytes.getD 2 0)
            (bytes.getD 3 0) (bytes.getD 4 0))).length ≤ f := by
          simp only [List.length_drop]
          omega
        have hg : ((bytes.drop 5).drop (be32 (bytes.getD 1 0) (bytes.getD 2 0)
            (bytes.getD 3 0) (bytes.getD 4 0))).length ≤ g := by
          simp only [List.length_drop]
          omega
        simp only [parseFramesAux]
        rw [if_neg h5, if_neg h5]
        by_cases hlen : (bytes.drop 5).length < be32 (bytes.getD 1 0)
            (bytes.getD 2 0) (bytes.getD 3 0) (bytes.getD 4 0)
        · rw [if_pos hlen, if_pos hlen]
        · rw [if_neg hlen, if_neg hlen]
          by_cases h80 : bytes.getD 0 0 &&& 0x80 ≠ 0
          · rw [if_pos h80, if_pos h80]
            exact ih g _ _ _ hf hg
          · rw [if_neg h80, if_neg h80]
            by_cases h01 : bytes.getD 0 0 &&& 0x01 ≠ 0
            · rw [if_pos h01, if_pos h01]
            · rw [if_neg h01, if_neg h01]
              exact ih g _ _ _ hf hg

theorem parseFramesAux_encodeFrame (p rest : List Nat)
    (msgs : List (List Nat)) (trailers : JsMap) (hp : p.length < 2 ^ 32)
    (fuel : Nat)
    (hfuel : (GrpcWebClient.encodePayload p ++ rest).length ≤ fuel) :
    parseFramesAux fuel (GrpcWebClient.encodePayload p ++ rest) msgs trailers
      = parseFramesAux rest.length rest (msgs ++ [p]) trailers := by
  have h4 : p.length < 4294967296 := by simpa using hp
  have hmod : p.length % 4294967296 = p.length := Nat.mod_eq_of_lt h4
  have hbytes : GrpcWebClient.encodePayload p ++ rest
      = 0 :: p.length / 2 ^ 24 % 256 :: p.length / 2 ^ 16 % 256 ::
        p.length / 2 ^ 8 % 256 :: p.length % 256 :: (p ++ rest) := by
    rw [encodePayload_frame_eq]
    simp [hmod]
  have hlenb : (GrpcWebClient.encodePayload p ++ rest).length
      = 5 + p.length + rest.length := by
    rw [hbytes]; simp; omega
  obtain ⟨f, rfl⟩ : ∃ f, fuel = f + 1 := ⟨fuel - 1, by omega⟩
  rw [hbytes]
  simp only [parseFramesAux]
  rw [if_neg (by simp)]
  have hbe : be32 (p.length / 2 ^ 24 % 256) (p.length / 2 ^ 16 % 256)
      (p.length / 2 ^ 8 % 256) (p.length % 256) = p.length := be32_beBytes _ hp
  simp only [List.getD_cons_succ, List.getD_cons_zero, List.drop_succ_cons,
    List.drop_zero, hbe]
  rw [if_neg (by simp)]
  rw [if_neg (by decide)]
  rw [if_neg (by decide)]
  rw [List.take_left, List.drop_left]
  exact parseFramesAux_fuel f rest.length rest _ _
    (by rw [hlenb] at hfuel; omega) le_rfl

theorem parseFramesAux_encodeAll (ps : List (List Nat))
    (msgs : List (List Nat)) (trailers : JsMap)
    (h : ∀ p ∈ ps, p.length < 2 ^ 32) :
    parseFramesAux ((ps.map GrpcWebClient.encodePayload).flatten).length
      ((ps.map GrpcWebClient.encodePayload).flatten) msgs trailers
      = Except.ok (msgs ++ ps, trailers) := by
  induction ps generalizing msgs with
  | nil => simp [parseFramesAux_nil]
  | cons p rest ih =>
    have hflat : ((p :: rest).map GrpcWebClient.encodePayload).flatten
        = GrpcWebClient.encodePayload p ++ ((rest.map GrpcWebClient.encodePayload).flatten) := by
      simp
    rw [hflat]
    rw [parseFramesAux_encodeFrame p _ msgs trailers (h p (by simp)) _ le_rfl]
    rw [ih (msgs ++ [p]) (fun q hq => h q (by simp [hq]))]
    simp

theorem parseResponse_of_frames (ps : List (List Nat))
    (h : ∀ p ∈ ps, p.length < 2 ^ 32) :
    GrpcWebClient.parseResponse ((ps.map GrpcWebClient.encodePayload).flatten)
      none none = Except.ok { messages := ps, trailers := [] } := by
  unfold GrpcWebClient.parseResponse
  rw [parseFramesAux_encodeAll ps [] [] h]
  simp

/-- Claim C10: parsing the encoding of any 32-bit-length payload with the
binary content type and no headers succeeds with exactly that payload as the
single message and an empty trailer map, and parsing a concatenation of
encoded frames yields the payloads as messages in input order, again with no
trailers and no failure. -/
theorem C10_codec_roundtrip (p : List Nat) (ps : List (List Nat))
    (hp : p.length < 2 ^ 32) (hps : ∀ q ∈ ps, q.length < 2 ^ 32) :
    GrpcWebClient.parseResponse (GrpcWebClient.encodePayload p) none none
      = Except.ok { messages := [p], trailers := [] } ∧
    GrpcWebClient.parseResponse ((ps.map GrpcWebClient.encodePayload).flatten)
      none none = Except.ok { messages := ps, trailers := [] } := by
  constructor
  · have := parseResponse_of_frames [p] (by simpa using hp)
    simpa using this
  · exact parseResponse_of_frames ps hps

/-- Witness for C10 at the concrete payloads `[1,2,3]` and `[[1],[2,3]]`. -/
theorem C10_codec_roundtrip_witness :
    GrpcWebClient.parseResponse (GrpcWebClient.encodePayload [1, 2, 3])
      none none = Except.ok { messages := [[1, 2, 3]], trailers := [] } :=
  (C10_codec_roundtrip [1, 2, 3] [[1], [2, 3]] (by decide) (by decide)).1

/-! Lemmas about the stream publisher. -/

theorem takeUntilIncl_of_not_any {α : Type} (p : α → Bool) (l : List α)
    (h : l.any p = false) : takeUntilIncl p l = l := by
  induction l with
  | nil => rfl
  | cons a t ih =>
    simp only [List.any_cons, Bool.or_eq_false_iff] at h
    simp [takeUntilIncl, h.1, ih h.2]

theorem restAfterTerm_of_not_any {α : Type} (p : α → Bool) (l : List α)
    (h : l.any p = false) : restAfterTerm p l = [] := by
  induction l with
  | nil => rfl
  | cons a t ih =>
    simp only [List.any_cons, Bool.or_eq_false_iff] at h
    simp [restAfterTerm, h.1, ih h.2]

theorem takeUntilIncl_append_of_not_any {α : Type} (p : α → Bool)
    (l r : List α) (h : l.any p = false) :
    takeUntilIncl p (l ++ r) = l ++ takeUntilIncl p r := by
  induction l with
  | nil => rfl
  | cons a t ih =>
    simp only [List.any_cons, Bool.or_eq_false_iff] at h
    simp [takeUntilIncl, h.1, ih h.2]

theorem takeUntilIncl_append_of_any {α : Type} (p : α → Bool) (l r : List α)
    (h : l.any p = true) :
    takeUntilIncl p (l ++ r) = takeUntilIncl p l := by
  induction l with
  | nil => simp at h
  | cons a t ih =>
    by_cases ha : p a
    · simp [takeUntilIncl, ha]
    · simp only [List.any_cons, ha, Bool.false_or] at h
      simp [takeUntilIncl, ha, ih h]

theorem takeUntilIncl_last {α : Type} (p : α → Bool) (l : List α)
    (h : l.any p = true) :
    ∃ (l1 : List α) (e : α), takeUntilIncl p l = l1 ++ [e] ∧ p e = true ∧
      l1.all (fun x => !p x) = true := by
  induction l with
  | nil => simp at h
  | cons a t ih =>
    by_cases ha : p a
    · exact ⟨[], a, by simp [takeUntilIncl, ha], ha, by simp⟩
    · simp only [List.any_cons, ha, Bool.false_or] at h
      obtain ⟨l1, e, h1, h2, h3⟩ := ih h
      exact ⟨a :: l1, e, by simp [takeUntilIncl, ha, h1], h2,
        by simp [ha, h3]⟩

theorem drainLoop_spec (q : List BatchEvent) (s : List String) :
    drainLoop q.length
        { queue := q, sent := s, closed := false, detached := false }
      = { queue := restAfterTerm isTerminal q,
          sent := s ++ (takeUntilIncl isTerminal q).map sseLine,
          closed := q.any isTerminal, detached := q.any isTerminal } := by
  induction q generalizing s with
  | nil => simp [drainLoop, restAfterTerm, takeUntilIncl]
  | cons e l ih =>
    by_cases he : isTerminal e
    · simp [drainLoop, he, restAfterTerm, takeUntilIncl]
    · simp only [List.length_cons, drainLoop, he, if_false]
      rw [ih (s ++ [sseLine e])]
      simp [restAfterTerm, takeUntilIncl, he]

theorem runStream_absorb (bs : List (List BatchEvent)) (st : StreamState)
    (hc : st.closed = true) (hd : st.detached = true) :
    bs.foldl (fun st batch => pollTick (deliver st batch)) st = st := by
  induction bs with
  | nil => rfl
  | cons b rest ih =>
    have hstep : pollTick (deliver st b) = st := by
      simp [deliver, hd, pollTick, hc]
    simp only [List.foldl_cons, hstep]
    exact ih

theorem runStream_spec (bs : List (List BatchEvent)) (s : List String) :
    ∃ q1, bs.foldl (fun st batch => pollTick (deliver st batch))
        { queue := [], sent := s, closed := false, detached := false }
      = { queue := q1,
          sent := s ++ (takeUntilIncl isTerminal bs.flatten).map sseLine,
          closed := bs.flatten.any isTerminal,
          detached := bs.flatten.any isTerminal } := by
  induction bs generalizing s with
  | nil => exact ⟨[], by simp [takeUntilIncl]⟩
  | cons b rest ih =>
    have hstep : pollTick (deliver
        { queue := [], sent := s, closed := false, detached := false } b)
        = { queue := restAfterTerm isTerminal b,
            sent := s ++ (takeUntilIncl isTerminal b).map sseLine,
            closed := b.any isTerminal, detached := b.any isTerminal } := by
      have hdel : deliver
          { queue := [], sent := s, closed := false, detached := false } b
          = { queue := b, sent := s, closed := false, detached := false } := by
        simp [deliver]
      rw [hdel]
      show drainLoop b.length _ = _
      exact drainLoop_spec b s
    by_cases hb : b.any isTerminal
    · refine ⟨restAfterTerm isTerminal b, ?_⟩
      simp only [List.foldl_cons, hstep, hb]
      rw [runStream_absorb rest _ (by simp) (by simp)]
      have h1 : takeUntilIncl isTerminal ((b :: rest).flatten)
          = takeUntilIncl isTerminal b := by
        rw [List.flatten_cons]
        exact takeUntilIncl_append_of_any _ _ _ hb
      have h2 : ((b :: rest).flatten).any isTerminal = true := by
        rw [List.flatten_cons]
        simp [hb]
      rw [h1, h2]
    · have hb0 : b.any isTerminal = false := by simpa using hb
      simp only [List.foldl_cons, hstep, hb0]
      rw [restAfterTerm_of_not_any _ _ hb0,
        takeUntilIncl_of_not_any _ _ hb0]
      obtain ⟨q1, hq1⟩ := ih (s ++ b.map sseLine)
      refine ⟨q1, ?_⟩
      rw [hq1]
      have h1 : takeUntilIncl isTerminal ((b :: rest).flatten)
          = b ++ takeUntilIncl isTerminal rest.flatten := by
        rw [List.flatten_cons]
        exact takeUntilIncl_append_of_not_any _ _ _ hb0
      have h2 : ((b :: rest).flatten).any isTerminal
          = (rest.flatten).any isTerminal := by
        rw [List.flatten_cons]
        simp [hb0]
      rw [h1, h2]
      simp

/-- Claim C8: the publisher first emits exactly the synthetic progress
snapshot of the task's counters at attach time as an SSE line, then forwards
the events that reach its queue in order up to and including the first
terminal event, at which point it closes and detaches; so when a terminal
event arrives, the forwarded sequence ends with that terminal event, carries
no terminal event before it, and nothing follows it. -/
theorem C8_stream_lifecycle (t : BatchTask) (bs : List (List BatchEvent)) :
    (∃ q1, runStream t bs = StreamState.mk q1
        (sseLine (syntheticProgress t) ::
          (takeUntilIncl isTerminal bs.flatten).map sseLine)
        (bs.flatten.any isTerminal) (bs.flatten.any isTerminal)) ∧
    (bs.flatten.any isTerminal = true →
      ∃ (l1 : List BatchEvent) (e : BatchEvent),
        takeUntilIncl isTerminal bs.flatten = l1 ++ [e] ∧
        isTerminal e = true ∧ l1.all (fun x => !isTerminal x) = true) := by
  constructor
  · obtain ⟨q1, hq1⟩ := runStream_spec bs [sseLine (syntheticProgress t)]
    exact ⟨q1, by rw [runStream, streamStart, hq1]; simp⟩
  · intro h
    exact takeUntilIncl_last _ _ h

/-- Witness for C8 at a concrete terminal event arrival. -/
theorem C8_stream_lifecycle_witness :
    ∃ (l1 : List BatchEvent) (e : BatchEvent),
      takeUntilIncl isTerminal
        ([[BatchEvent.cancelled "t" 1 0 0 0]] : List (List BatchEvent)).flatten
        = l1 ++ [e] ∧ isTerminal e = true ∧
      l1.all (fun x => !isTerminal x) = true :=
  (C8_stream_lifecycle (newBatchTask "t" 1)
    [[BatchEvent.cancelled "t" 1 0 0 0]]).2 (by decide)

/-! Lemmas about the batch executor. -/

theorem chunksOfAux_nil {α : Type} (B : Nat) (f : Nat) :
    chunksOfAux B f ([] : List α) = [] := by
  cases f <;> rfl

theorem chunksOfAux_fuel {α : Type} (B : Nat) (hB : 1 ≤ B) (f1 : Nat) :
    ∀ (f2 : Nat) (l : List α), l.length ≤ f1 → l.length ≤ f2 →
      chunksOfAux B f1 l = chunksOfAux B f2 l := by
  induction f1 with
  | zero =>
    intro f2 l hl _
    have hb : l = [] := List.length_eq_zero.mp (Nat.le_zero.mp hl)
    subst hb
    rw [chunksOfAux_nil, chunksOfAux_nil]
  | succ f ih =>
    intro f2 l hl1 hl2
    cases l with
    | nil => rw [chunksOfAux_nil, chunksOfAux_nil]
    | cons a t =>
      simp only [List.length_cons] at hl1 hl2
      obtain ⟨g, rfl⟩ : ∃ g, f2 = g + 1 := ⟨f2 - 1, by omega⟩
      show (a :: t).take B :: chunksOfAux B f ((a :: t).drop B)
        = (a :: t).take B :: chunksOfAux B g ((a :: t).drop B)
      rw [ih g _ (by simp only [List.length_drop, List.length_cons]; omega)
        (by simp only [List.length_drop, List.length_cons]; omega)]

theorem chunksOf_cons {α : Type} (B : Nat) (l : List α) (hB : 1 ≤ B)
    (hl : l ≠ []) : chunksOf B l = l.take B :: chunksOf B (l.drop B) := by
  cases l with
  | nil => exact absurd rfl hl
  | cons a t =>
    show chunksOfAux B (t.length + 1) (a :: t)
      = (a :: t).take B :: chunksOf B ((a :: t).drop B)
    obtain ⟨b, rfl⟩ : ∃ b, B = b + 1 := ⟨B - 1, by omega⟩
    show (a :: t).take (b + 1) :: chunksOfAux (b + 1) t.length ((a :: t).drop (b + 1))
      = (a :: t).take (b + 1) :: chunksOf (b + 1) ((a :: t).drop (b + 1))
    rw [chunksOfAux_fuel (b + 1) hB t.length ((a :: t).drop (b + 1)).length _
      (by simp only [List.length_drop, List.length_cons]; omega) le_rfl]
    rfl

theorem chunksOf_flatten {α : Type} (B : Nat) (hB : 1 ≤ B) (n : Nat) :
    ∀ (l : List α), l.length ≤ n → (chunksOf B l).flatten = l := by
  induction n with
  | zero =>
    intro l hl
    have hb : l = [] := List.length_eq_zero.mp (Nat.le_zero.mp hl)
    subst hb
    rfl
  | succ n ih =>
    intro l hl
    by_cases h : l = []
    · subst h; rfl
    · rw [chunksOf_cons B l hB h, List.flatten_cons,
        ih (l.drop B) (by simp only [List.length_drop]; have := List.length_pos.mpr h; omega),
        List.take_append_drop]

theorem processOne_clock {T R : Type} [DecidableEq T]
    (worker : T → Except String R) (sc : Nat → Bool) (st : RunState T R)
    (x : T) : (processOne worker sc st x).clock = st.clock + 1 := by
  unfold processOne
  by_cases h : sc st.clock || taskCancelled st.task
  · simp [h]
  · cases hw : worker x <;> simp [h, hw]

theorem record_fields (t : BatchTask) (s : Bool) (o : RecordOpts) :
    (BatchTask.record t s o).processed = t.processed + 1 ∧
    (BatchTask.record t s o).ok = (if s then t.ok + 1 else t.ok) ∧
    (BatchTask.record t s o).fail = (if s then t.fail else t.fail + 1) ∧
    (BatchTask.record t s o).total = t.total ∧
    (BatchTask.record t s o).cancelled = t.cancelled := by
  cases s <;> simp [BatchTask.record, BatchTask.publish]

theorem processOne_taskCancelled {T R : Type} [DecidableEq T]
    (worker : T → Except String R) (sc : Nat → Bool) (st : RunState T R)
    (x : T) :
    taskCancelled (processOne worker sc st x).task = taskCancelled st.task := by
  unfold processOne
  by_cases h : (sc st.clock || taskCancelled st.task) = true
  · rw [if_pos h]
  · rw [if_neg h]
    cases hw : worker x with
    | ok d =>
      cases ht : st.task with
      | none => simp [ht, taskCancelled]
      | some t =>
        simp [ht, taskCancelled,
          (record_fields t true ⟨none, none, none⟩).2.2.2.2]
    | error e =>
      cases ht : st.task with
      | none => simp [ht, taskCancelled]
      | some t =>
        simp [ht, taskCancelled,
          (record_fields t false ⟨none, none, some e⟩).2.2.2.2]

theorem foldl_processOne_clock {T R : Type} [DecidableEq T]
    (worker : T → Except String R) (sc : Nat → Bool) (l : List T) :
    ∀ (st : RunState T R),
      (l.foldl (processOne worker sc) st).clock = st.clock + l.length := by
  induction l with
  | nil => intro st; simp
  | cons x xs ih =>
    intro st
    rw [List.foldl_cons, ih, processOne_clock]
    simp
    omega

theorem foldl_processOne_taskCancelled {T R : Type} [DecidableEq T]
    (worker : T → Except String R) (sc : Nat → Bool) (l : List T) :
    ∀ (st : RunState T R),
      taskCancelled (l.foldl (processOne worker sc) st).task
        = taskCancelled st.task := by
  induction l with
  | nil => intro st; rfl
  | cons x xs ih =>
    intro st
    rw [List.foldl_cons, ih, processOne_taskCancelled]

theorem processOne_noCancel_eq {T R : Type} [DecidableEq T]
    (worker : T → Except String R) (c : Nat) (st : RunState T R) (x : T)
    (htc : taskCancelled st.task = false) (hcl : st.clock < c) :
    processOne worker (fun n => decide (c ≤ n)) st x
      = processOne worker (fun _ => false) st x := by
  unfold processOne
  have h1 : decide (c ≤ st.clock) = false := by simp; omega
  simp [htc, h1]

theorem foldl_processOne_congr {T R : Type} [DecidableEq T]
    (worker : T → Except String R) (c : Nat) (l : List T) :
    ∀ (st : RunState T R), taskCancelled st.task = false →
      st.clock + l.length ≤ c →
      l.foldl (processOne worker (fun n => decide (c ≤ n))) st
        = l.foldl (processOne worker (fun _ => false)) st := by
  induction l with
  | nil => intro st _ _; rfl
  | cons x xs ih =>
    intro st htc hcl
    simp only [List.length_cons] at hcl
    rw [List.foldl_cons, List.foldl_cons,
      processOne_noCancel_eq worker c st x htc (by omega)]
    exact ih _ (by rw [processOne_taskCancelled]; exact htc)
      (by rw [processOne_clock]; omega)

theorem runBatchLoop_noCancel_flatten {T R : Type} [DecidableEq T]
    (worker : T → Except String R) (cs : List (List T)) :
    ∀ (st : RunState T R), taskCancelled st.task = false →
      runBatchLoop worker (fun _ => false) cs st
        = (cs.flatten).foldl (processOne worker (fun _ => false)) st := by
  induction cs with
  | nil => intro st _; rfl
  | cons c rest ih =>
    intro st htc
    show (if (false || taskCancelled st.task) = true then st else _) = _
    rw [htc]
    simp only [Bool.or_false, if_false]
    rw [List.flatten_cons, List.foldl_append]
    exact ih _ (by rw [foldl_processOne_taskCancelled]; exact htc)

theorem processOne_results_get_ne {T R : Type} [DecidableEq T]
    (worker : T → Except String R) (sc : Nat → Bool) (st : RunState T R)
    (y x : T) (hxy : x ≠ y) :
    jsMapGet (processOne worker sc st y).results x = jsMapGet st.results x := by
  unfold processOne
  by_cases h : sc st.clock || taskCancelled st.task
  · simp only [h, if_true]
    exact jsMapGet_set_ne _ _ _ _ hxy
  · simp only [h, if_false]
    cases hw : worker y <;> simp only [] <;>
      exact jsMapGet_set_ne _ _ _ _ hxy

theorem foldl_processOne_get_not_mem {T R : Type} [DecidableEq T]
    (worker : T → Except String R) (sc : Nat → Bool) (l : List T) :
    ∀ (st : RunState T R) (x : T), x ∉ l →
      jsMapGet (l.foldl (processOne worker sc) st).results x
        = jsMapGet st.results x := by
  induction l with
  | nil => intro st x _; rfl
  | cons y ys ih =>
    intro st x hx
    have hxy : x ≠ y := fun h => hx (by simp [h])
    have hxs : x ∉ ys := fun h => hx (by simp [h])
    rw [List.foldl_cons, ih _ _ hxs, processOne_results_get_ne _ _ _ _ _ hxy]

theorem runBatchLoop_get_not_mem {T R : Type} [DecidableEq T]
    (worker : T → Except String R) (sc : Nat → Bool) (cs : List (List T)) :
    ∀ (st : RunState T R) (x : T), x ∉ cs.flatten →
      jsMapGet (runBatchLoop worker sc cs st).results x
        = jsMapGet st.results x := by
  induction cs with
  | nil => intro st x _; rfl
  | cons c rest ih =>
    intro st x hx
    rw [List.flatten_cons] at hx
    have hxc : x ∉ c := fun h => hx (List.mem_append.mpr (Or.inl h))
    have hxr : x ∉ rest.flatten := fun h => hx (List.mem_append.mpr (Or.inr h))
    simp only [runBatchLoop]
    by_cases h : (sc st.clock || taskCancelled st.task) = true
    · rw [if_pos h]
    · rw [if_neg h, ih _ _ hxr, foldl_processOne_get_not_mem _ _ _ _ _ hxc]

theorem countP_eq_one_of_nodup {T : Type} [DecidableEq T] (l : List T) (x : T)
    (hnd : l.Nodup) (hx : x ∈ l) :
    l.countP (fun a => decide (a = x)) = 1 := by
  induction l with
  | nil => simp at hx
  | cons y ys ih =>
    rw [List.countP_cons]
    rcases List.mem_cons.mp hx with h | h
    · subst h
      have hy : x ∉ ys := (List.nodup_cons.mp hnd).1
      have h0 : ys.countP (fun a => decide (a = x)) = 0 := by
        rw [List.countP_eq_zero]
        intro a ha
        simp only [decide_eq_true_eq]
        exact fun he => hy (he ▸ ha)
      simp [h0]
    · have hyx : ¬ (y = x) := fun he => (List.nodup_cons.mp hnd).1 (he ▸ h)
      have hys := ih (List.nodup_cons.mp hnd).2 h
      simp [hys, hyx]

theorem foldl_processOne_counters {T R : Type} [DecidableEq T]
    (worker : T → Except String R) (l : List T) :
    ∀ (st : RunState T R) (t : BatchTask), st.task = some t →
      t.cancelled = false →
      ∃ t2, (l.foldl (processOne worker (fun _ => false)) st).task = some t2 ∧
        t2.processed = t.processed + l.length ∧
        t2.ok = t.ok + l.countP (fun x => exceptOk (worker x)) ∧
        t2.fail = t.fail + l.countP (fun x => !(exceptOk (worker x))) ∧
        t2.total = t.total ∧ t2.cancelled = false := by
  induction l with
  | nil =>
    intro st t h hc
    exact ⟨t, by simpa using h, by simp, by simp, by simp, rfl, hc⟩
  | cons x xs ih =>
    intro st t h hc
    have hcond : ¬ (((fun _ => false) st.clock || taskCancelled st.task) = true) := by
      simp [h, taskCancelled, hc]
    cases hw : worker x with
    | ok dd =>
      have hstep : (processOne worker (fun _ => false) st x).task
          = some (BatchTask.record t true ⟨none, none, none⟩) := by
        unfold processOne
        rw [if_neg hcond, hw]
        simp [h]
      have hrc : (BatchTask.record t true ⟨none, none, none⟩).cancelled = false := by
        rw [(record_fields t true ⟨none, none, none⟩).2.2.2.2]
        exact hc
      obtain ⟨t2, htask, hp, hokc, hfc, htt, hcc⟩ :=
        ih (processOne worker (fun _ => false) st x)
          (BatchTask.record t true ⟨none, none, none⟩) hstep hrc
      have hf := record_fields t true ⟨none, none, none⟩
      refine ⟨t2, by rwa [List.foldl_cons], ?_, ?_, ?_, ?_, hcc⟩
      · rw [hp, hf.1, List.length_cons]; omega
      · rw [hokc, hf.2.1, List.countP_cons]
        simp [hw, exceptOk]
        omega
      · rw [hfc, hf.2.2.1, List.countP_cons]
        simp [hw, exceptOk]
      · rw [htt, hf.2.2.2.1]
    | error e =>
      have hstep : (processOne worker (fun _ => false) st x).task
          = some (BatchTask.record t false ⟨none, none, some e⟩) := by
        unfold processOne
        rw [if_neg hcond, hw]
        simp [h]
      have hrc : (BatchTask.record t false ⟨none, none, some e⟩).cancelled = false := by
        rw [(record_fields t false ⟨none, none, some e⟩).2.2.2.2]
        exact hc
      obtain ⟨t2, htask, hp, hokc, hfc, htt, hcc⟩ :=
        ih (processOne worker (fun _ => false) st x)
          (BatchTask.record t false ⟨none, none, some e⟩) hstep hrc
      have hf := record_fields t false ⟨none, none, some e⟩
      refine ⟨t2, by rwa [List.foldl_cons], ?_, ?_, ?_, ?_, hcc⟩
      · rw [hp, hf.1, List.length_cons]; omega
      · rw [hokc, hf.2.1, List.countP_cons]
        simp [hw, exceptOk]
      · rw [hfc, hf.2.2.1, List.countP_cons]
        simp [hw, exceptOk]
        omega
      · rw [htt, hf.2.2.2.1]

theorem processOne_noCancel_results {T R : Type} [DecidableEq T]
    (worker : T → Except String R) (st : RunState T R) (y : T)
    (htc : taskCancelled st.task = false) :
    (processOne worker (fun _ => false) st y).results
      = jsMapSet st.results y (itemOutcome worker y) := by
  unfold processOne
  rw [if_neg (by simp [htc])]
  cases hw : worker y <;> simp [itemOutcome, hw]

theorem foldl_processOne_get_mem {T R : Type} [DecidableEq T]
    (worker : T → Except String R) (l : List T) :
    ∀ (st : RunState T R) (x : T), l.Nodup → x ∈ l →
      taskCancelled st.task = false →
      jsMapGet ((l.foldl (processOne worker (fun _ => false)) st)).results x
        = some (itemOutcome worker x) := by
  induction l with
  | nil => intro st x _ hx _; simp at hx
  | cons y ys ih =>
    intro st x hnd hx htc
    rw [List.foldl_cons]
    rcases List.mem_cons.mp hx with h | h
    · subst h
      have hy : x ∉ ys := (List.nodup_cons.mp hnd).1
      rw [foldl_processOne_get_not_mem _ _ _ _ _ hy,
        processOne_noCancel_results _ _ _ htc, jsMapGet_set_self]
    · exact ih _ _ (List.nodup_cons.mp hnd).2 h
        (by rw [processOne_taskCancelled]; exact htc)

/-- Claim C5: with exactly one rejecting item among N (distinct) items and no
cancellation, runBatch maps the failing item to `{ok:false, error}` carrying
the failure's message, maps each of the other N-1 items to its
`{ok:true, data}` outcome (so the one failure aborts neither its chunk
siblings nor later chunks, whatever the chunk width), and the associated
fresh task ends with ok = N-1, fail = 1, processed = N. -/
theorem C5_single_failure {T R : Type} [DecidableEq T] (items : List T)
    (worker : T → Except String R) (x0 : T) (e : String) (d : T → R)
    (bs : Option Nat) (id : String) (hnd : items.Nodup) (hmem : x0 ∈ items)
    (hfail : worker x0 = Except.error e)
    (hok : ∀ x ∈ items, x ≠ x0 → worker x = Except.ok (d x)) :
    (∃ t2, (runBatch items worker bs (some (newBatchTask id items.length))
        (fun _ => false)).task = some t2 ∧
      t2.ok + 1 = items.length ∧ t2.fail = 1 ∧
      t2.processed = items.length ∧ t2.total = items.length) ∧
    jsMapGet (runBatch items worker bs (some (newBatchTask id items.length))
        (fun _ => false)).results x0
      = some { ok := false, data := none, error := some e, cancelled := false } ∧
    (∀ x ∈ items, x ≠ x0 →
      jsMapGet (runBatch items worker bs (some (newBatchTask id items.length))
          (fun _ => false)).results x
        = some (ItemResult.mk true (some (d x)) none false)) := by
  have hB : 1 ≤ max 1 (bs.getD 50) := le_max_left _ _
  have ht0 : taskCancelled (RunState.mk ([] : List (T × ItemResult R))
      (some (newBatchTask id items.length)) 0).task = false := rfl
  have hrun : runBatch items worker bs (some (newBatchTask id items.length))
      (fun _ => false)
      = items.foldl (processOne worker (fun _ => false))
        (RunState.mk [] (some (newBatchTask id items.length)) 0) := by
    unfold runBatch
    rw [runBatchLoop_noCancel_flatten worker _ _ ht0,
      chunksOf_flatten _ hB items.length items le_rfl]
  rw [hrun]
  obtain ⟨t2, htask, hp, hokc, hfc, htt, _⟩ :=
    foldl_processOne_counters worker items
      (RunState.mk [] (some (newBatchTask id items.length)) 0)
      (newBatchTask id items.length) rfl rfl
  have hcong : items.countP (fun a => !(exceptOk (worker a)))
      = items.countP (fun a => decide (a = x0)) := by
    refine List.countP_congr (fun a ha => ?_)
    by_cases hax : a = x0
    · subst hax
      simp [hfail, exceptOk]
    · simp [hok a ha hax, exceptOk, hax]
  have hone : items.countP (fun a => !(exceptOk (worker a))) = 1 := by
    rw [hcong]
    exact countP_eq_one_of_nodup items x0 hnd hmem
  have hlen := List.length_eq_countP_add_countP
    (fun a => exceptOk (worker a)) items
  have hbridge : items.countP (fun a => decide (¬ (exceptOk (worker a) = true)))
      = items.countP (fun a => !(exceptOk (worker a))) :=
    List.countP_congr (fun a ha => by simp)
  rw [hbridge, hone] at hlen
  have hn0 : (newBatchTask id items.length).processed = 0 := rfl
  have hn1 : (newBatchTask id items.length).ok = 0 := rfl
  have hn2 : (newBatchTask id items.length).fail = 0 := rfl
  have hn3 : (newBatchTask id items.length).total = items.length := rfl
  refine ⟨⟨t2, htask, ?_, ?_, ?_, ?_⟩, ?_, ?_⟩
  · rw [hokc, hn1]; omega
  · rw [hfc, hn2, hone]
  · rw [hp, hn0]; omega
  · rw [htt, hn3]
  · rw [foldl_processOne_get_mem worker items
      (RunState.mk [] (some (newBatchTask id items.length)) 0) x0 hnd hmem ht0]
    simp [itemOutcome, hfail]
  · intro x hx hxne
    rw [foldl_processOne_get_mem worker items
      (RunState.mk [] (some (newBatchTask id items.length)) 0) x hnd hx ht0]
    simp [itemOutcome, hok x hx hxne]

theorem runBatchLoop_cons_true {T R : Type} [DecidableEq T]
    (worker : T → Except String R) (sc : Nat → Bool) (chunk : List T)
    (rest : List (List T)) (st : RunState T R)
    (h : (sc st.clock || taskCancelled st.task) = true) :
    runBatchLoop worker sc (chunk :: rest) st = st := by
  show (if (sc st.clock || taskCancelled st.task) = true then st else _) = st
  rw [h]
  simp

theorem runBatchLoop_cons_false {T R : Type} [DecidableEq T]
    (worker : T → Except String R) (sc : Nat → Bool) (chunk : List T)
    (rest : List (List T)) (st : RunState T R)
    (h : (sc st.clock || taskCancelled st.task) = false) :
    runBatchLoop worker sc (chunk :: rest) st
      = runBatchLoop worker sc rest (chunk.foldl (processOne worker sc) st) := by
  show (if (sc st.clock || taskCancelled st.task) = true then st else _) = _
  rw [h]
  simp

theorem runBatchLoop_cancelAt {T R : Type} [DecidableEq T]
    (worker : T → Except String R) (B : Nat) (hB : 1 ≤ B) (k : Nat) :
    ∀ (l : List T) (st : RunState T R) (c : Nat), c = st.clock + k * B →
      runBatchLoop worker (fun n => decide (c ≤ n)) (chunksOf B l) st
        = runBatchLoop worker (fun _ => false)
            (chunksOf B (l.take (k * B))) st := by
  induction k with
  | zero =>
    intro l st c hc
    have h0 : 0 * B = 0 := Nat.zero_mul B
    rw [h0] at hc
    rw [h0, List.take_zero]
    show runBatchLoop worker _ (chunksOf B l) st = st
    by_cases hl : l = []
    · subst hl; rfl
    · rw [chunksOf_cons B l hB hl]
      apply runBatchLoop_cons_true
      rw [hc]
      simp
  | succ k ih =>
    intro l st c hc
    have hkB : 0 < (k + 1) * B := Nat.mul_pos (Nat.succ_pos k) hB
    have hBk : B ≤ (k + 1) * B := Nat.le_mul_of_pos_left B (Nat.succ_pos k)
    by_cases hl : l = []
    · subst hl
      rw [List.take_nil]
      rfl
    · have hlpos : 0 < l.length := List.length_pos.mpr hl
      have hd : decide (c ≤ st.clock) = false := by
        simp only [decide_eq_false_iff_not]
        omega
      have htake_ne : l.take ((k + 1) * B) ≠ [] := by
        intro hemp
        have hlen := congrArg List.length hemp
        simp only [List.length_take, List.length_nil] at hlen
        omega
      rw [chunksOf_cons B l hB hl]
      cases htc : taskCancelled st.task with
      | true =>
        rw [chunksOf_cons B _ hB htake_ne]
        rw [runBatchLoop_cons_true _ _ _ _ _ (by rw [htc]; simp),
          runBatchLoop_cons_true _ _ _ _ _ (by rw [htc]; simp)]
      | false =>
        have hfold : (l.take B).foldl
            (processOne worker (fun n => decide (c ≤ n))) st
            = (l.take B).foldl (processOne worker (fun _ => false)) st := by
          refine foldl_processOne_congr worker c (l.take B) st htc ?_
          simp only [List.length_take]
          omega
        rw [runBatchLoop_cons_false _ _ _ _ _ (by rw [htc, hd]; simp)]
        by_cases hsmall : l.length ≤ B
        · have htl : l.take ((k + 1) * B) = l :=
            List.take_of_length_le (le_trans hsmall hBk)
          rw [htl, chunksOf_cons B l hB hl,
            runBatchLoop_cons_false _ _ _ _ _ (by rw [htc]; simp)]
          have hdropnil : l.drop B = [] := List.drop_eq_nil_of_le hsmall
          rw [hdropnil]
          show (l.take B).foldl (processOne worker _) st
            = (l.take B).foldl (processOne worker _) st
          exact hfold
        · rw [chunksOf_cons B _ hB htake_ne,
            runBatchLoop_cons_false _ _ _ _ _ (by rw [htc]; simp)]
          have htB : (l.take ((k + 1) * B)).take B = l.take B := by
            rw [List.take_take]
            congr 1
            exact Nat.min_eq_left hBk
          have hdB : (l.take ((k + 1) * B)).drop B
              = (l.drop B).take ((k + 1) * B - B) := by
            rw [List.drop_take]
          have hsub : (k + 1) * B - B = k * B := by
            rw [Nat.succ_mul]
            omega
          rw [htB, hdB, hsub, hfold]
          refine ih (l.drop B)
            ((l.take B).foldl (processOne worker (fun _ => false)) st) c ?_
          rw [foldl_processOne_clock]
          have hlt : (l.take B).length = B := by
            simp only [List.length_take]
            omega
          rw [hlt, hc, Nat.succ_mul]
          omega

/-- Counterexample to claim C1 as stated: two items, chunk width 1, and a
cancellation signal that becomes set once the first chunk has settled; the
second chunk's item "b" is simply absent from the result map — it is not
mapped to `{ok:false, cancelled:true, error:"cancelled"}` as the claim
demands, because the chunk-boundary check breaks out of the loop without
writing entries for the remaining items. -/
theorem C1_counterexample :
    jsMapGet (runBatch ["a", "b"] (fun _ => Except.ok 0) (some 1) none
        (fun n => decide (1 ≤ n))).results "b" = none ∧
    ¬ (jsMapGet (runBatch ["a", "b"] (fun _ => Except.ok 0) (some 1) none
        (fun n => decide (1 ≤ n))).results "b"
      = some (ItemResult.mk false none (some "cancelled") true)) := by
  constructor <;> decide

/-- Claim C1 (amended): when the cancellation signal becomes set after the
first k chunks of width B have settled, runBatch returns exactly the state —
result map and task counters — of a run over only the first k*B items with no
cancellation: earlier chunks keep their real outcomes and the task counters
count only them, and every item of the remaining chunks is absent from the
result map (rather than being mapped to a cancelled entry). -/
theorem C1_runBatch_cancel {T R : Type} [DecidableEq T] (items : List T)
    (worker : T → Except String R) (B k : Nat) (task : Option BatchTask)
    (hB : 1 ≤ B) :
    runBatch items worker (some B) task (fun n => decide (k * B ≤ n))
      = runBatch (items.take (k * B)) worker (some B) task (fun _ => false) ∧
    ∀ x, x ∉ items.take (k * B) →
      jsMapGet (runBatch items worker (some B) task
        (fun n => decide (k * B ≤ n))).results x = none := by
  have hmax : max 1 ((some B).getD 50) = B := by
    rw [Option.getD_some]
    exact Nat.max_eq_right hB
  have h1 : runBatch items worker (some B) task (fun n => decide (k * B ≤ n))
      = runBatch (items.take (k * B)) worker (some B) task (fun _ => false) := by
    unfold runBatch
    rw [hmax]
    exact runBatchLoop_cancelAt worker B hB k items (RunState.mk [] task 0)
      (k * B) (by simp)
  refine ⟨h1, ?_⟩
  intro x hx
  rw [h1]
  unfold runBatch
  rw [hmax]
  rw [runBatchLoop_get_not_mem worker _ _ (RunState.mk [] task 0) x
    (by rw [chunksOf_flatten B hB (items.take (k * B)).length _ le_rfl]
        exact hx)]
  rfl

/-- Witness for C1 (amended) at two concrete items with chunk width 1 and
cancellation after the first chunk. -/
theorem C1_runBatch_cancel_witness :
    runBatch ["a", "b"] (fun _ => Except.ok 0) (some 1) none
      (fun n => decide (1 * 1 ≤ n))
    = runBatch ((["a", "b"] : List String).take (1 * 1))
      (fun _ => Except.ok 0) (some 1) none (fun _ => false) :=
  (C1_runBatch_cancel ["a", "b"] (fun _ => Except.ok 0) 1 1 none
    (by decide)).1

/-- Witness for C5 at three concrete items with the middle one failing. -/
theorem C5_single_failure_witness :
    jsMapGet (runBatch ["a", "b", "c"]
        (fun x => if x = "b" then Except.error "boom" else Except.ok 1) none
        (some (newBatchTask "t" (["a", "b", "c"] : List String).length))
        (fun _ => false)).results "b"
      = some (ItemResult.mk false none (some "boom") false) :=
  (C5_single_failure ["a", "b", "c"]
    (fun x => if x = "b" then Except.error "boom" else Except.ok 1) "b" "boom"
    (fun _ => 1) none "t" (by decide) (by decide) (by simp)
    (by
      intro x hx hne
      simp only [List.mem_cons, List.not_mem_nil, or_false] at hx
      rcases hx with rfl | rfl | rfl
      · simp
      · exact absurd rfl hne
      · simp)).2.1

end Grok2api
